import Mathlib

/-!
Verification of the agent-flow execution engine (Flow / Node / SharedStore /
error-recovery wrappers) against its natural-language specification.

The definitions below are a shallow embedding of the TypeScript sources:
  - shared-store.ts   (SharedStore: data map, subscribers, notification)
  - node.ts           (Node: process function plus reserved store keys)
  - flow.ts           (Flow: node registry, connections, start set, executeNode)
  - error-recovery.ts (withRetry / withTimeout / withFallback wrappers)
  - specialized-nodes.ts (RetryNode with its instance-scoped attempts field)

JavaScript dynamic values are modelled by the inductive `Val`; a missing map
entry is the JS `undefined`, modelled by `Val.undefined`.  Thrown JS errors are
modelled as `Val` payloads carried in `Except`; a JS `Error` object is
modelled by `Val.str message` so that `error.message` is recoverable.
Subscriber callbacks are modelled by an environment `Beh` telling, per
subscriber id and notified value, whether the callback throws; each callback
invocation is recorded as an `SEvent`.  Mutation of the store is explicit
state passing.  Cooperative async scheduling is sequentialized: the
`Promise.all` over start nodes is modelled by running the traversals in
start-node order (one admissible schedule of the single-threaded event loop).
-/

set_option maxHeartbeats 1000000

namespace AgentFlow

/-- JS-style dynamic values (the `AnyData` of types.ts). `undefined` is the JS
`undefined` returned for missing map entries. -/
inductive Val where
  | undefined
  | bool (b : Bool)
  | nat (n : Nat)
  | str (s : String)
  | arr (elems : List Val)
  | obj (fields : List (String × Val))

/-- JS truthiness of a value (used by RetryNode for `input.error || input.failed`). -/
def Val.truthy : Val → Bool
  | .undefined => false
  | .bool b => b
  | .nat n => !(n == 0)
  | .str s => !(s == "")
  | .arr _ => true
  | .obj _ => true

/-- JS `Map.get` over an insertion-ordered association list. -/
def assocGet {α : Type} (l : List (String × α)) (k : String) : Option α :=
  (l.find? (fun p => p.1 == k)).map (fun p => p.2)

/-- JS `Map.set`: replace in place when the key exists (keeping its insertion
position), otherwise append. -/
def assocSet {α : Type} (l : List (String × α)) (k : String) (v : α) : List (String × α) :=
  if l.any (fun p => p.1 == k) then l.map (fun p => if p.1 == k then (k, v) else p)
  else l ++ [(k, v)]

/-- JS `Map.has`. -/
def assocHas {α : Type} (l : List (String × α)) (k : String) : Bool :=
  l.any (fun p => p.1 == k)

/-- JS `Map.delete` (the removal part; the Bool result is `assocHas`). -/
def assocRemove {α : Type} (l : List (String × α)) (k : String) : List (String × α) :=
  l.filter (fun p => !(p.1 == k))

/-- Field access `v.key` on a JS object value; `undefined` when absent or when
the value is not an object. -/
def Val.objGet : Val → String → Val
  | .obj fs, k => (assocGet fs k).getD .undefined
  | _, _ => .undefined

/-- JS object spread update: one field of `\x7b...v, k: x\x7d`.  On a non-object the
claims never exercise it; we produce a fresh one-field object. -/
def Val.objSet : Val → String → Val → Val
  | .obj fs, k, x => .obj (assocSet fs k x)
  | _, k, x => .obj [(k, x)]

/-- Iterated object spread update, fields applied left to right. -/
def Val.objSetMany (v : Val) (fs : List (String × Val)) : Val :=
  fs.foldl (fun acc p => acc.objSet p.1 p.2) v

/-- Subscriber behaviour environment: `β c v = true` means the callback
registered under id `c` throws when invoked with value `v`.  (Callback side
effects other than throwing are irrelevant to the claims and not modelled.) -/
def Beh := Nat → Val → Bool

/-- Record of one subscriber-callback invocation: which subscriber, with which
key and value, and whether the callback threw (in `notifySubscribers` a throw
is caught and logged; `threw = true` marks such a logged exception). -/
structure SEvent where
  sub : Nat
  key : String
  value : Val
  threw : Bool

/-- SharedStore: the `data` map plus the `subscribers` map (key to the
insertion-ordered set of subscriber ids), from shared-store.ts. -/
structure SharedStore where
  data : List (String × Val)
  subs : List (String × List Nat)

/-- The empty store `new SharedStore()`. -/
def emptyStore : SharedStore := ⟨[], []⟩

/-- Current subscribers of a key, in registration order. -/
def subsOf (subs : List (String × List Nat)) (k : String) : List Nat :=
  (assocGet subs k).getD []

/-- One raw callback invocation: `.error` models the callback throwing. -/
def invokeSubscriber (β : Beh) (c : Nat) (k : String) (v : Val) : Except Unit SEvent :=
  if β c v then .error () else .ok ⟨c, k, v, false⟩

/-- SharedStore.notifySubscribers: invoke every subscriber of `key` in order;
each invocation is wrapped in try/catch, a throw is logged (recorded with
`threw = true`) and never escapes. -/
def notifySubscribers (β : Beh) (st : SharedStore) (k : String) (v : Val) : List SEvent :=
  (subsOf st.subs k).map (fun c =>
    match invokeSubscriber β c k v with
    | .ok e => e
    | .error _ => ⟨c, k, v, true⟩)

/-- SharedStore.get: `undefined` when the key is missing. -/
def SharedStore.get (st : SharedStore) (k : String) : Val :=
  (assocGet st.data k).getD .undefined

/-- SharedStore.has. -/
def SharedStore.hasKey (st : SharedStore) (k : String) : Bool :=
  assocHas st.data k

/-- SharedStore.set: write the entry, then synchronously notify the
subscribers of that key. -/
def SharedStore.set (β : Beh) (st : SharedStore) (k : String) (v : Val) :
    SharedStore × List SEvent :=
  let st' : SharedStore := ⟨assocSet st.data k v, st.subs⟩
  (st', notifySubscribers β st' k v)

/-- SharedStore.delete: `Map.delete` returns whether the key existed; only a
successful removal notifies the subscribers, with `undefined` as the value. -/
def SharedStore.delete (β : Beh) (st : SharedStore) (k : String) :
    SharedStore × Bool × List SEvent :=
  if st.hasKey k then
    let st' : SharedStore := ⟨assocRemove st.data k, st.subs⟩
    (st', true, notifySubscribers β st' k .undefined)
  else (st, false, [])

/-- SharedStore.clear: empties the data map only.  The subscriber map is left
untouched and no callback is invoked (the empty event list mirrors the absence
of any `notifySubscribers` call in the source). -/
def SharedStore.clear (st : SharedStore) : SharedStore × List SEvent :=
  (⟨[], st.subs⟩, [])

/-- SharedStore.append: push onto an existing array value (notifying with the
grown array), otherwise fall through to `set` with a fresh one-element array. -/
def SharedStore.append (β : Beh) (st : SharedStore) (k : String) (v : Val) :
    SharedStore × List SEvent :=
  match st.get k with
  | .arr xs =>
    let grown : Val := .arr (xs ++ [v])
    let st' : SharedStore := ⟨assocSet st.data k grown, st.subs⟩
    (st', notifySubscribers β st' k grown)
  | _ => st.set β k (.arr [v])

/-- Add a subscriber id to the subscriber map (`Set.add`: no duplicate). -/
def subsAdd (subs : List (String × List Nat)) (k : String) (c : Nat) :
    List (String × List Nat) :=
  match assocGet subs k with
  | none => subs ++ [(k, [c])]
  | some l => assocSet subs k (if l.contains c then l else l ++ [c])

/-- SharedStore.subscribe: register the callback, then — when the key already
holds a value — invoke it immediately.  This immediate invocation is NOT
wrapped in try/catch in the source, so a throw escapes to the caller of
`subscribe` (modelled by the `.error` result); the registration performed
before the invocation persists either way. -/
def SharedStore.subscribe (β : Beh) (st : SharedStore) (k : String) (c : Nat) :
    Except Unit (List SEvent) × SharedStore :=
  let st' : SharedStore := ⟨st.data, subsAdd st.subs k c⟩
  if st'.hasKey k then
    match invokeSubscriber β c k (st'.get k) with
    | .error _ => (.error (), st')
    | .ok e => (.ok [e], st')
  else (.ok [], st')

/-! ## Node (node.ts) -/

/-- A Node: an id and a process function `(input, store) -> output`.  The
process function may mutate the store and may throw (`.error`); the store
component is returned in either case, mirroring in-place JS mutation. -/
structure MNode where
  id : String
  process : Val → SharedStore → (Except Val Val) × SharedStore

/-- Node.execute: run the process function; on success record the result under
`node:<id>:output`, on failure record the thrown error under
`node:<id>:error` and re-throw the same error.  (Subscriber events raised by
these reserved-key writes are not tracked by the flow claims and dropped.) -/
def MNode.execute (β : Beh) (n : MNode) (input : Val) (st : SharedStore) :
    (Except Val Val) × SharedStore :=
  match n.process input st with
  | (.ok v, st1) => (.ok v, (st1.set β ("node:" ++ n.id ++ ":output") v).1)
  | (.error e, st1) => (.error e, (st1.set β ("node:" ++ n.id ++ ":error") e).1)

/-! ## Flow (flow.ts) -/

/-- An abort signal, as a trace over abstract time: `sig t` tells whether the
signal is in the aborted state at tick `t`.  Ticks advance by one per node
invocation, the only suspension points the model distinguishes. -/
def Signal := Nat → Bool

/-- One edge of the graph: `\x7bfrom, to, condition?\x7d`. -/
structure Connection where
  src : String
  tgt : String
  cond : Option (Val → SharedStore → Bool)

/-- `if (conn.condition && !conn.condition(output, store)) continue`: the edge
fires when the condition is absent or evaluates to true. -/
def condHolds : Option (Val → SharedStore → Bool) → Val → SharedStore → Bool
  | none, _, _ => true
  | some f, out, st => f out st

/-- The Flow instance: node registry (insertion-ordered map), edge list,
start-node set (insertion-ordered), and the mutable `abortSignal` field. -/
structure Flow where
  nodes : List (String × MNode) := []
  connections : List Connection := []
  startNodes : List String := []
  abortSignal : Option Signal := none

/-- `Set.add`: append if not present. -/
def setAdd (l : List String) (x : String) : List String :=
  if l.contains x then l else l ++ [x]

/-- Flow.addNode: register (last write wins) and mark as a start node. -/
def Flow.addNode (f : Flow) (n : MNode) : Flow :=
  { f with nodes := assocSet f.nodes n.id n, startNodes := setAdd f.startNodes n.id }

/-- Flow.connect: both endpoints must be registered; append the edge and
remove the target from the start set. -/
def Flow.connect (f : Flow) (src tgt : String)
    (cond : Option (Val → SharedStore → Bool)) : Except String Flow :=
  if !(assocHas f.nodes src) then .error ("Source node " ++ src ++ " not found")
  else if !(assocHas f.nodes tgt) then .error ("Target node " ++ tgt ++ " not found")
  else .ok { f with
    connections := f.connections ++ [⟨src, tgt, cond⟩],
    startNodes := f.startNodes.filter (fun s => !(s == tgt)) }

/-- Flow.withAbortSignal: store the signal in the instance field. -/
def Flow.withAbortSignal (f : Flow) (sig : Signal) : Flow :=
  { f with abortSignal := some sig }

/-- Errors a traversal can reject with. -/
inductive FlowError where
  | aborted
  | nodeNotFound (id : String)
  | noStartNodes
  | nodeError (e : Val)
  | fuelOut

/-- Per-execute traversal state: the `executedNodes` set, the store, the
instrumentation log of process-function invocations `(node id, tick)`, and
the current tick. -/
structure ExecState where
  executed : List String
  store : SharedStore
  invocations : List (String × Nat)
  tick : Nat

/-- Mark a node executed and record its invocation at the current tick
(flow.ts lines 208-211: mark, then invoke `node.execute`). -/
def ExecState.mark (s : ExecState) (nodeId : String) : ExecState :=
  { s with executed := s.executed ++ [nodeId],
           invocations := s.invocations ++ [(nodeId, s.tick)] }

/-- Install the store returned by a node execution and advance the clock past
the awaited `node.execute`. -/
def ExecState.withStore (s : ExecState) (st : SharedStore) : ExecState :=
  { s with store := st, tick := s.tick + 1 }

/-- Whether the signal (if any) is aborted at tick `t`. -/
def sigAborted : Option Signal → Nat → Bool
  | none, _ => false
  | some sig, t => sig t

/-- The edge-following loop inside executeNode: walk the outgoing connections
in declaration order, fire those whose condition passes, await each fired
target traversal before looking at the next edge, accumulate the fired
results, and return the last fired result — or the emitting node output when
no edge fired. -/
def runConns (exec : String → Val → ExecState → (Except FlowError Val) × ExecState)
    (out : Val) : List Connection → List Val → ExecState →
    (Except FlowError Val) × ExecState
  | [], acc, s => (.ok (acc.getLast?.getD out), s)
  | c :: rest, acc, s =>
    if condHolds c.cond out s.store then
      match exec c.tgt out s with
      | (.error e, s') => (.error e, s')
      | (.ok r, s') => runConns exec out rest (acc ++ [r]) s'
    else
      runConns exec out rest acc s

/-- Flow.executeNode, fuel-indexed to make the recursion structural.  Order of
checks follows the source: abort signal, node lookup, executed-set skip
(returning the recorded `node:<id>:output`), mark, invoke, follow edges.
`executeFlow` supplies fuel `nodes.length + 1`, which the marking discipline
makes sufficient: every recursion level first marks a fresh node. -/
def executeNode (flow : Flow) (β : Beh) (sig : Option Signal) :
    Nat → String → Val → ExecState → (Except FlowError Val) × ExecState
  | 0 => fun _ _ s => (.error .fuelOut, s)
  | fuel + 1 => fun nodeId input s =>
    if sigAborted sig s.tick then (.error .aborted, s)
    else
      match assocGet flow.nodes nodeId with
      | none => (.error (.nodeNotFound nodeId), s)
      | some node =>
        if s.executed.contains nodeId then
          (.ok (s.store.get ("node:" ++ nodeId ++ ":output")), s)
        else
          let s1 := s.mark nodeId
          match MNode.execute β node input s1.store with
          | (.error e, st') => (.error (.nodeError e), s1.withStore st')
          | (.ok out, st') =>
            runConns (executeNode flow β sig fuel) out
              (flow.connections.filter (fun c => c.src == nodeId)) [] (s1.withStore st')

/-- The sequential start-node loop of Flow.execute: run each start node in
registration order, keeping only the last traversal result; a rejection
aborts the loop. -/
def runStartsSeq (exec : String → Val → ExecState → (Except FlowError Val) × ExecState)
    (input : Val) : List String → ExecState → (Except FlowError Val) × ExecState
  | [], s => (.ok .undefined, s)
  | id :: rest, s =>
    match exec id input s with
    | (.error e, s') => (.error e, s')
    | (.ok v, s') =>
      match rest with
      | [] => (.ok v, s')
      | _ :: _ => runStartsSeq exec input rest s'

/-- The parallel start-node dispatch of Flow.execute, sequentialized in
start-node order (one admissible cooperative schedule): the traversal results
are discarded; a rejection rejects the whole `Promise.all`. -/
def runStartsPar (exec : String → Val → ExecState → (Except FlowError Val) × ExecState)
    (input : Val) : List String → ExecState → Option FlowError × ExecState
  | [], s => (none, s)
  | id :: rest, s =>
    match exec id input s with
    | (.error e, s') => (some e, s')
    | (.ok _, s') => runStartsPar exec input rest s'

/-- Options of Flow.execute. -/
structure ExecOptions where
  input : Option Val := none
  store : Option SharedStore := none
  parallel : Bool := false
  abortSignal : Option Signal := none

/-- Flow.execute.  Note the faithful translation of line 99,
`this.abortSignal = options.abortSignal`: the instance field set by
`withAbortSignal` is unconditionally overwritten (to `none` when the option
is absent) before any check happens.  In parallel mode the resolved value is
the array of the values recorded under `node:<id>:output` for each start id,
read from the store after all traversals settle — not the traversal results,
which are discarded. -/
def executeFlow (flow : Flow) (β : Beh) (opts : ExecOptions) :
    (Except FlowError Val) × ExecState :=
  let store := opts.store.getD emptyStore
  let input := opts.input.getD (.obj [])
  let flow1 := { flow with abortSignal := opts.abortSignal }
  let s0 : ExecState := ⟨[], store, [], 0⟩
  if flow1.nodes.isEmpty then (.ok input, s0)
  else if flow1.startNodes.isEmpty then (.error .noStartNodes, s0)
  else
    let fuel := flow1.nodes.length + 1
    let ids := flow1.startNodes
    if opts.parallel then
      match runStartsPar (executeNode flow1 β flow1.abortSignal fuel) input ids s0 with
      | (some e, s') => (.error e, s')
      | (none, s') =>
        (.ok (.arr (ids.map (fun id => s'.store.get ("node:" ++ id ++ ":output")))), s')
    else
      runStartsSeq (executeNode flow1 β flow1.abortSignal fuel) input ids s0

/-! ## Error-recovery wrappers (error-recovery.ts) -/

/-- List-level substring occurrence test (the JS `String.prototype.includes`). -/
def listHasSub (pat : List Char) : List Char → Bool
  | [] => pat.isPrefixOf []
  | c :: rest => pat.isPrefixOf (c :: rest) || listHasSub pat rest

/-- `s.includes pat` for strings, via the character lists. -/
def strIncludes (s pat : String) : Bool := listHasSub pat.data s.data

/-- JS `error.message` of a modelled error value (an `Error` object is
modelled by `Val.str message`). -/
def errMessage : Val → String
  | .str s => s
  | _ => ""

/-- The synthetic error the withTimeout timer rejects with. -/
def timeoutErrorVal (timeoutMs : Nat) : Val :=
  .str ("Node execution timed out after " ++ toString timeoutMs ++ "ms")

/-- ErrorRecoveryUtils.withFallback: the process function of the wrapper node
`<id>_with_fallback` — any error from the wrapped node is caught and replaced
by `fallbackFn(error, input, store)`. -/
def withFallbackProcess (β : Beh) (node : MNode)
    (fallbackFn : Val → Val → SharedStore → (Except Val Val) × SharedStore)
    (input : Val) (st : SharedStore) : (Except Val Val) × SharedStore :=
  match MNode.execute β node input st with
  | (.ok v, st') => (.ok v, st')
  | (.error e, st') => fallbackFn e input st'

/-- ErrorRecoveryUtils.withTimeout: the process function of the wrapper node
`<id>_with_timeout`.  The race between the node execution and the timer is
modelled by the oracle `timerWins`; rejected races land in the catch block,
whose test is literally `error.message.includes(\x22timed out\x22)`.  When the
timer wins, the underlying execution keeps running in the background; its
late store effects are outside this model (the spec flags them as a known
hazard, not a contract). -/
def withTimeoutProcess (β : Beh) (node : MNode) (timeoutMs : Nat)
    (timeoutFn : Val → SharedStore → (Except Val Val) × SharedStore)
    (timerWins : Bool) (input : Val) (st : SharedStore) : (Except Val Val) × SharedStore :=
  if timerWins then
    let e := timeoutErrorVal timeoutMs
    if strIncludes (errMessage e) "timed out" then timeoutFn input st
    else (.error e, st)
  else
    match MNode.execute β node input st with
    | (.ok v, st') => (.ok v, st')
    | (.error e, st') =>
      if strIncludes (errMessage e) "timed out" then timeoutFn input st'
      else (.error e, st')

/-- The retry loop of ErrorRecoveryUtils.withRetry: `attempt` is the loop
variable (starting at 1 on every call of the wrapper), `remaining` the number
of retries still allowed (`maxRetries + 1 - attempt`).  On failure with no
retries left, or with a disqualifying error, the last error is re-thrown
unchanged.  The returned list records the value of the attempt counter at
each invocation of the underlying node; its length is the number of
invocations.  The fixed `delayMs` pause between attempts does not affect any
claim and is not modelled. -/
def retryLoop (β : Beh) (node : MNode) (cond : Val → Bool) (input : Val) :
    Nat → Nat → SharedStore → (Except Val Val) × SharedStore × List Nat
  | 0, attempt, st =>
    match MNode.execute β node input st with
    | (.ok v, st') => (.ok v, st', [attempt])
    | (.error e, st') => (.error e, st', [attempt])
  | r + 1, attempt, st =>
    match MNode.execute β node input st with
    | (.ok v, st') => (.ok v, st', [attempt])
    | (.error e, st') =>
      if cond e then
        let res := retryLoop β node cond input r (attempt + 1) st'
        (res.1, res.2.1, attempt :: res.2.2)
      else (.error e, st', [attempt])

/-- ErrorRecoveryUtils.withRetry: the process function of the wrapper node
`<id>_with_retry`.  The attempt counter is a local of this function, created
anew at 1 on every call — the wrapper node instance carries no cross-call
state. -/
def withRetryProcess (β : Beh) (node : MNode) (maxRetries : Nat)
    (cond : Val → Bool) (input : Val) (st : SharedStore) :
    (Except Val Val) × SharedStore × List Nat :=
  retryLoop β node cond input maxRetries 1 st

/-- The outcome of every underlying-node invocation the retry loop performs,
in attempt order: each entry is the (result, store) pair of one invocation of
`originalNode.execute(input, store)` on the actual threaded store.  Mirrors
`retryLoop` branch for branch; the last entry is the final attempt, whose
error — when the loop rejects — is the one re-thrown. -/
def retryResults (β : Beh) (node : MNode) (cond : Val → Bool) (input : Val) :
    Nat → SharedStore → List ((Except Val Val) × SharedStore)
  | 0, st => [MNode.execute β node input st]
  | r + 1, st =>
    match MNode.execute β node input st with
    | (.ok v, st') => [(.ok v, st')]
    | (.error e, st') =>
      if cond e then (.error e, st') :: retryResults β node cond input r st'
      else [(.error e, st')]

/-! ## RetryNode (specialized-nodes.ts) -/

/-- The process function of RetryNode, with the instance field
`private attempts = 0` made explicit as the in/out `attempts` state: reset to
zero when the input carries no error, incremented on a failing input, and the
post-call value is what the instance field holds for the next `execute` of
the same RetryNode instance.  The retry delay is not modelled. -/
def RetryNode.process (targetNodeId : String) (maxRetries : Nat)
    (attempts : Nat) (input : Val) : Val × Nat :=
  let hasError := (input.objGet "error").truthy || (input.objGet "failed").truthy
  if !hasError then (input, 0)
  else
    let a := attempts + 1
    if a > maxRetries then
      (input.objSetMany
        [("retryFailed", .bool true), ("attempts", .nat a), ("maxRetries", .nat maxRetries)], a)
    else
      (input.objSetMany
        [("retry", .bool true), ("targetNode", .str targetNodeId),
         ("attempt", .nat a), ("maxRetries", .nat maxRetries)], a)

/-! ## Concrete fixtures used by witnesses and counterexamples -/

/-- Subscriber environment where no callback ever throws. -/
def behNone : Beh := fun _ _ => false

/-- Subscriber environment where exactly subscriber 0 throws. -/
def behZeroThrows : Beh := fun c _ => c == 0

/-- A node returning a constant value and leaving the store alone. -/
def nodeConst (id : String) (v : Val) : MNode :=
  ⟨id, fun _ st => (.ok v, st)⟩

/-- A node that always throws the error `Val.str "x"`. -/
def alwaysFailNode : MNode :=
  ⟨"n", fun _ st => (.error (.str "x"), st)⟩

/-- A node whose own failure message happens to contain the words timed out. -/
def opTimedOutNode : MNode :=
  ⟨"op", fun _ st => (.error (.str "operation timed out"), st)⟩

/-- A node failing with an unrelated message. -/
def boomNode : MNode :=
  ⟨"b", fun _ st => (.error (.str "boom"), st)⟩

/-- A node that throws a DIFFERENT error on every invocation: its process
function increments a counter it keeps in the store under cnt and throws the
error nat n where n is the number of invocations so far (a JS process doing
`store.set` then `throw`; the fixture stores carry no subscribers, so the
notification environment of the write is irrelevant). -/
def countingFailNode : MNode :=
  ⟨"c", fun _ st =>
    match st.get "cnt" with
    | .nat m => (.error (.nat (m + 1)), (SharedStore.set behNone st "cnt" (.nat (m + 1))).1)
    | _ => (.error (.nat 1), (SharedStore.set behNone st "cnt" (.nat 1)).1)⟩

/-- Two nodes A (output 1) and B (output 2) with the unconditional edge A to B;
start set is A alone. -/
def exFlowAB : Flow :=
  match (Flow.addNode (Flow.addNode {} (nodeConst "A" (.nat 1))) (nodeConst "B" (.nat 2))).connect
      "A" "B" none with
  | .ok f => f
  | .error _ => {}

/-- Two independent start nodes X (output 10) and Y (output 20), added in the
order X then Y, no edges. -/
def exFlowXY : Flow :=
  Flow.addNode (Flow.addNode {} (nodeConst "X" (.nat 10))) (nodeConst "Y" (.nat 20))

/-- The diamond: A to B, A to C, B to D, C to D, all edges unconditional. -/
def exFlowDiamond : Flow :=
  let f0 := Flow.addNode (Flow.addNode (Flow.addNode (Flow.addNode {}
    (nodeConst "A" (.nat 1))) (nodeConst "B" (.nat 2))) (nodeConst "C" (.nat 3)))
    (nodeConst "D" (.nat 4))
  match (do
    let f1 ← f0.connect "A" "B" none
    let f2 ← f1.connect "A" "C" none
    let f3 ← f2.connect "B" "D" none
    f3.connect "C" "D" none : Except String Flow) with
  | .ok f => f
  | .error _ => {}

/-- A single-node flow with node A returning 1. -/
def exFlowA : Flow := Flow.addNode {} (nodeConst "A" (.nat 1))

/-- A signal that is aborted from the start. -/
def sigAlways : Signal := fun _ => true

/-- Execute options requesting parallel dispatch, everything else defaulted. -/
def optsPar : ExecOptions := { parallel := true }

/-- Default execute options (sequential, fresh store, no signal). -/
def optsSeq : ExecOptions := {}

/-- A store holding the single entry k with value 7 and no subscribers. -/
def storeK7 : SharedStore := ⟨[("k", .nat 7)], []⟩

/-- A store holding k with value 7 and subscriber 0 registered on k. -/
def storeK7Sub0 : SharedStore := ⟨[("k", .nat 7)], [("k", [0])]⟩

/-! ## General lemmas about the traversal -/

theorem mark_invocations (s : ExecState) (id : String) :
    (s.mark id).invocations = s.invocations ++ [(id, s.tick)] := rfl

theorem mark_executed (s : ExecState) (id : String) :
    (s.mark id).executed = s.executed ++ [id] := rfl

theorem withStore_invocations (s : ExecState) (st : SharedStore) :
    (s.withStore st).invocations = s.invocations := rfl

theorem withStore_executed (s : ExecState) (st : SharedStore) :
    (s.withStore st).executed = s.executed := rfl

/-- State-predicate preservation through the edge-following loop, parametric
in the recursive executor. -/
theorem runConns_pres (P : ExecState → Prop)
    (exec : String → Val → ExecState → (Except FlowError Val) × ExecState)
    (hexec : ∀ id inp s, P s → P (exec id inp s).2) (out : Val) :
    ∀ (conns : List Connection) (acc : List Val) (s : ExecState),
      P s → P (runConns exec out conns acc s).2 := by
  intro conns
  induction conns with
  | nil => intro acc s h; simpa [runConns] using h
  | cons c rest ih =>
    intro acc s h
    rw [runConns]
    split
    · rcases hx : exec c.tgt out s with ⟨r, s'⟩
      have hs' : P s' := by
        have hp := hexec c.tgt out s h
        rw [hx] at hp
        exact hp
      cases r with
      | error e => exact hs'
      | ok v => exact ih _ _ hs'
    · exact ih _ _ h

/-- State-predicate preservation through executeNode: `P` must survive the
mark-then-invoke transition (which only happens on an unexecuted node with an
unaborted signal) and a store/clock update. -/
theorem executeNode_pres (flow : Flow) (β : Beh) (sig : Option Signal)
    (P : ExecState → Prop)
    (hmark : ∀ s id, P s → s.executed.contains id = false →
      sigAborted sig s.tick = false → P (s.mark id))
    (hstore : ∀ s st, P s → P (s.withStore st)) :
    ∀ (fuel : Nat) (id : String) (inp : Val) (s : ExecState),
      P s → P (executeNode flow β sig fuel id inp s).2 := by
  intro fuel
  induction fuel with
  | zero => intro id inp s h; simpa [executeNode] using h
  | succ f ih =>
    intro id inp s h
    rw [executeNode]
    by_cases hsig : sigAborted sig s.tick = true
    · simpa [hsig] using h
    · have hsig' : sigAborted sig s.tick = false := by
        simpa using hsig
      rcases hn : assocGet flow.nodes id with _ | node
      · simpa [hsig', hn] using h
      · by_cases hex : id ∈ s.executed
        · simpa [hsig', hn, hex] using h
        · have hex' : s.executed.contains id = false := by
            simpa using hex
          have h1 : P (s.mark id) := hmark s id h hex' hsig'
          simp only [hsig', hn, hex, List.elem_eq_mem, decide_False, Bool.false_eq_true,
            if_false]
          rcases hx : MNode.execute β node inp (s.mark id).store with ⟨r, st'⟩
          cases r with
          | error e => exact hstore _ _ h1
          | ok out =>
            exact runConns_pres P _ (fun id2 inp2 s2 h2 => ih id2 inp2 s2 h2) out _ _ _
              (hstore _ _ h1)

/-- Preservation through the sequential start-node loop. -/
theorem runStartsSeq_pres (P : ExecState → Prop)
    (exec : String → Val → ExecState → (Except FlowError Val) × ExecState)
    (hexec : ∀ id inp s, P s → P (exec id inp s).2) (input : Val) :
    ∀ (ids : List String) (s : ExecState), P s → P (runStartsSeq exec input ids s).2 := by
  intro ids
  induction ids with
  | nil => intro s h; simpa [runStartsSeq] using h
  | cons id rest ih =>
    intro s h
    rw [runStartsSeq]
    rcases hx : exec id input s with ⟨r, s'⟩
    have hs' : P s' := by
      have hp := hexec id input s h
      rw [hx] at hp
      exact hp
    cases r with
    | error e => simpa using hs'
    | ok v =>
      cases rest with
      | nil => simpa using hs'
      | cons id2 rest2 => exact ih _ hs'

/-- Preservation through the parallel start-node dispatch. -/
theorem runStartsPar_pres (P : ExecState → Prop)
    (exec : String → Val → ExecState → (Except FlowError Val) × ExecState)
    (hexec : ∀ id inp s, P s → P (exec id inp s).2) (input : Val) :
    ∀ (ids : List String) (s : ExecState), P s → P (runStartsPar exec input ids s).2 := by
  intro ids
  induction ids with
  | nil => intro s h; simpa [runStartsPar] using h
  | cons id rest ih =>
    intro s h
    rw [runStartsPar]
    rcases hx : exec id input s with ⟨r, s'⟩
    have hs' : P s' := by
      have hp := hexec id input s h
      rw [hx] at hp
      exact hp
    cases r with
    | error e => simpa using hs'
    | ok v => exact ih _ hs'

/-- Preservation through a whole execute call: the final traversal state
satisfies any predicate that holds of the fresh per-call state and survives
the two primitive transitions. -/
theorem executeFlow_pres (P : ExecState → Prop) (flow : Flow) (β : Beh)
    (opts : ExecOptions)
    (hmark : ∀ s id, P s → s.executed.contains id = false →
      sigAborted opts.abortSignal s.tick = false → P (s.mark id))
    (hstore : ∀ s st, P s → P (s.withStore st))
    (hinit : ∀ store, P ⟨[], store, [], 0⟩) :
    P (executeFlow flow β opts).2 := by
  have hexec := executeNode_pres { flow with abortSignal := opts.abortSignal } β
    opts.abortSignal P hmark hstore
  rw [executeFlow]
  by_cases h1 : ({ flow with abortSignal := opts.abortSignal } : Flow).nodes.isEmpty
  · simpa [h1] using hinit _
  · by_cases h2 : ({ flow with abortSignal := opts.abortSignal } : Flow).startNodes.isEmpty
    · simpa [h1, h2] using hinit _
    · by_cases h3 : opts.parallel
      · simp only [h1, h2, h3, Bool.false_eq_true, if_false, if_true]
        rcases hr : runStartsPar
            (executeNode { flow with abortSignal := opts.abortSignal } β opts.abortSignal
              (({ flow with abortSignal := opts.abortSignal } : Flow).nodes.length + 1))
            (opts.input.getD (.obj [])) ({ flow with abortSignal := opts.abortSignal } : Flow).startNodes
            ⟨[], opts.store.getD emptyStore, [], 0⟩ with ⟨o, s'⟩
        have hs' : P s' := by
          have hp := runStartsPar_pres P
            (executeNode { flow with abortSignal := opts.abortSignal } β opts.abortSignal
              (({ flow with abortSignal := opts.abortSignal } : Flow).nodes.length + 1))
            (fun a b c hc => hexec _ a b c hc)
            (opts.input.getD (.obj []))
            ({ flow with abortSignal := opts.abortSignal } : Flow).startNodes
            ⟨[], opts.store.getD emptyStore, [], 0⟩ (hinit _)
          rw [hr] at hp
          exact hp
        cases o with
        | none => simpa using hs'
        | some e => simpa using hs'
      · simp only [h1, h2, h3, Bool.false_eq_true, if_false]
        exact runStartsSeq_pres P _ (fun a b c hc => hexec _ a b c hc) _ _ _ (hinit _)

/-- The at-most-once invariant of a traversal state: the ids in the
process-invocation log are pairwise distinct, and every one of them has been
recorded in the executed set. -/
def invariantOnce (s : ExecState) : Prop :=
  (s.invocations.map Prod.fst).Nodup ∧ ∀ id ∈ s.invocations.map Prod.fst, id ∈ s.executed

theorem invariantOnce_mark (s : ExecState) (id : String) (h : invariantOnce s)
    (hex : s.executed.contains id = false) : invariantOnce (s.mark id) := by
  have hid : id ∉ s.executed := by simpa using hex
  have hid2 : id ∉ s.invocations.map Prod.fst := fun hmem => hid (h.2 id hmem)
  refine ⟨?_, ?_⟩
  · rw [mark_invocations, List.map_append]
    rw [List.nodup_append]
    exact ⟨h.1, List.nodup_singleton _, by
      simp only [List.map_cons, List.map_nil, List.disjoint_singleton]
      exact hid2⟩
  · intro x hx
    rw [mark_invocations, List.map_append] at hx
    rw [mark_executed]
    rcases List.mem_append.mp hx with hx | hx
    · exact List.mem_append_left _ (h.2 x hx)
    · simp only [List.map_cons, List.map_nil, List.mem_singleton] at hx
      subst hx
      exact List.mem_append_right _ (by simp)

theorem invariantOnce_withStore (s : ExecState) (st : SharedStore)
    (h : invariantOnce s) : invariantOnce (s.withStore st) := h

theorem invariantOnce_init (store : SharedStore) :
    invariantOnce ⟨[], store, [], 0⟩ := by
  constructor
  · simp
  · intro id hid
    simp at hid

/-- C4: within a single execute call every node's process function runs at
most once — the invocation log of the final traversal state never repeats a
node id; when the traversal reaches a node whose id is already in the
executed set (signal unaborted, node registered), the recursive call does not
re-invoke the process function and instead returns the value stored under
node:<id>:output, leaving the state untouched; and in the diamond graph
A→B, A→C, B→D, C→D executed from A, node D is invoked exactly once. -/
theorem executed_set_skips_and_runs_once :
    (∀ (flow : Flow) (β : Beh) (opts : ExecOptions),
      ((executeFlow flow β opts).2.invocations.map Prod.fst).Nodup)
    ∧ (∀ (flow : Flow) (β : Beh) (sig : Option Signal) (f : Nat) (id : String)
        (inp : Val) (s : ExecState) (node : MNode),
        sigAborted sig s.tick = false → assocGet flow.nodes id = some node →
        id ∈ s.executed →
        executeNode flow β sig (f + 1) id inp s =
          (.ok (s.store.get ("node:" ++ id ++ ":output")), s))
    ∧ ((executeFlow exFlowDiamond behNone optsSeq).2.invocations.map Prod.fst).count "D" = 1 := by
  refine ⟨?_, ?_, ?_⟩
  · intro flow β opts
    exact (executeFlow_pres invariantOnce flow β opts
      (fun s id h hc _ => invariantOnce_mark s id h hc)
      invariantOnce_withStore invariantOnce_init).1
  · intro flow β sig f id inp s node hsig hn hex
    rw [executeNode]
    simp [hsig, hn, hex]
  · rfl

/-- Witness for the C4 theorem: in the diamond flow, a second traversal
arrival at node D (already executed, recorded output 4) returns the stored
output without another invocation. -/
theorem executed_set_skips_and_runs_once_witness :
    executeNode exFlowDiamond behNone none 1 "D" (.nat 2)
      ⟨["A", "B", "D"], ⟨[("node:D:output", .nat 4)], []⟩, [("A", 0), ("B", 1), ("D", 2)], 3⟩
      = (.ok (.nat 4), ⟨["A", "B", "D"], ⟨[("node:D:output", .nat 4)], []⟩,
          [("A", 0), ("B", 1), ("D", 2)], 3⟩) := by
  exact executed_set_skips_and_runs_once.2.1 exFlowDiamond behNone none 0 "D" (.nat 2)
    ⟨["A", "B", "D"], ⟨[("node:D:output", .nat 4)], []⟩, [("A", 0), ("B", 1), ("D", 2)], 3⟩
    (nodeConst "D" (.nat 4)) rfl rfl (by simp)

/-- Specification-side view of the sequential start loop: the list of every
start node traversal result, in registration order, threading the same state. -/
def collectStarts (exec : String → Val → ExecState → (Except FlowError Val) × ExecState)
    (input : Val) : List String → ExecState → (Except FlowError (List Val)) × ExecState
  | [], s => (.ok [], s)
  | id :: rest, s =>
    match exec id input s with
    | (.error e, s') => (.error e, s')
    | (.ok v, s') =>
      match collectStarts exec input rest s' with
      | (.ok vs, s'') => (.ok (v :: vs), s'')
      | (.error e, s'') => (.error e, s'')

theorem collectStarts_ok_length
    (exec : String → Val → ExecState → (Except FlowError Val) × ExecState) (input : Val) :
    ∀ (ids : List String) (s : ExecState) (vs : List Val) (s' : ExecState),
      collectStarts exec input ids s = (.ok vs, s') → vs.length = ids.length := by
  intro ids
  induction ids with
  | nil =>
    intro s vs s' h
    rw [collectStarts] at h
    cases h
    rfl
  | cons id rest ih =>
    intro s vs s' h
    rw [collectStarts] at h
    split at h
    · cases h
    · split at h
      · rename_i hc
        cases h
        simp [ih _ _ _ hc]
      · cases h

/-- The sequential loop keeps exactly the last of the collected traversal
results (and the same final state). -/
theorem runStartsSeq_eq_collect_last
    (exec : String → Val → ExecState → (Except FlowError Val) × ExecState) (input : Val) :
    ∀ (ids : List String) (s : ExecState) (vs : List Val) (s' : ExecState),
      ids ≠ [] → collectStarts exec input ids s = (.ok vs, s') →
      runStartsSeq exec input ids s = (.ok (vs.getLast?.getD .undefined), s') := by
  intro ids
  induction ids with
  | nil => intro s vs s' hne; exact absurd rfl hne
  | cons id rest ih =>
    intro s vs s' _ h
    rw [collectStarts] at h
    rw [runStartsSeq]
    split at h
    · cases h
    · split at h
      · rename_i x1 v s1 hx x2 vs2 s2 hc
        cases h
        cases rest with
        | nil =>
          rw [collectStarts] at hc
          cases hc
          rfl
        | cons id2 rest2 =>
          have hlen : vs2.length = (id2 :: rest2).length :=
            collectStarts_ok_length exec input _ s1 vs2 _ hc
          cases vs2 with
          | nil => simp at hlen
          | cons c cs =>
            have hrec := ih s1 (c :: cs) _ (by simp) hc
            rw [hrec]
            simp [List.getLast?_cons_cons]
      · cases h

/-- C2: a sequential execute call (parallel not set) on a flow with nodes and
at least one start node resolves to the traversal result of the LAST start
node in registration order: when the per-start traversal results collect to
the list `vs` (each entry being its start node's depth-first traversal result
— the last fired edge's downstream result, or the node's own output when no
edge fired, as implemented by executeNode), execute returns exactly the last
entry of `vs`, with the same final state. -/
theorem sequential_execute_returns_last_start_traversal (flow : Flow) (β : Beh)
    (opts : ExecOptions) (vs : List Val) (s' : ExecState)
    (hpar : opts.parallel = false) (hnodes : flow.nodes ≠ []) (hstarts : flow.startNodes ≠ [])
    (hcollect : collectStarts
        (executeNode { flow with abortSignal := opts.abortSignal } β opts.abortSignal
          (flow.nodes.length + 1))
        (opts.input.getD (.obj [])) flow.startNodes ⟨[], opts.store.getD emptyStore, [], 0⟩
      = (.ok vs, s')) :
    executeFlow flow β opts = (.ok (vs.getLast?.getD .undefined), s') := by
  rw [executeFlow]
  have h1 : ({ flow with abortSignal := opts.abortSignal } : Flow).nodes.isEmpty = false := by
    show flow.nodes.isEmpty = false
    cases hn : flow.nodes with
    | nil => exact absurd hn hnodes
    | cons a l => rfl
  have h2 : ({ flow with abortSignal := opts.abortSignal } : Flow).startNodes.isEmpty = false := by
    show flow.startNodes.isEmpty = false
    cases hn : flow.startNodes with
    | nil => exact absurd hn hstarts
    | cons a l => rfl
  simp only [h1, h2, hpar, Bool.false_eq_true, if_false]
  exact runStartsSeq_eq_collect_last _ _ _ _ _ _ hstarts hcollect

/-- Witness for C2: two independent start nodes X (output 10) then Y
(output 20); the sequential execute call resolves to the traversal result of
Y, the last registered start node. -/
theorem sequential_execute_returns_last_start_traversal_witness :
    (executeFlow exFlowXY behNone optsSeq).1 = .ok (.nat 20) := by
  have h := sequential_execute_returns_last_start_traversal exFlowXY behNone optsSeq
    [.nat 10, .nat 20]
    (collectStarts (executeNode { exFlowXY with abortSignal := none } behNone none 3)
      (Val.obj []) exFlowXY.startNodes ⟨[], emptyStore, [], 0⟩).2
    rfl (List.cons_ne_nil _ _) (List.cons_ne_nil _ _) rfl
  exact congrArg Prod.fst h

/-- C1 (amended): a parallel execute call that resolves does so with an array
indexed by start-node enumeration order whose i-th entry is the value the
final store records under node:<i-th start id>:output — the start node's own
recorded output, not the result of the traversal rooted at it (the traversal
results are awaited and discarded). -/
theorem parallel_execute_returns_recorded_outputs (flow : Flow) (β : Beh)
    (opts : ExecOptions) (v : Val) (s' : ExecState)
    (hpar : opts.parallel = true) (hnodes : flow.nodes ≠ []) (hstarts : flow.startNodes ≠ [])
    (hok : executeFlow flow β opts = (.ok v, s')) :
    v = .arr (flow.startNodes.map (fun id => s'.store.get ("node:" ++ id ++ ":output"))) := by
  rw [executeFlow] at hok
  have h1 : ({ flow with abortSignal := opts.abortSignal } : Flow).nodes.isEmpty = false := by
    show flow.nodes.isEmpty = false
    cases hn : flow.nodes with
    | nil => exact absurd hn hnodes
    | cons a l => rfl
  have h2 : ({ flow with abortSignal := opts.abortSignal } : Flow).startNodes.isEmpty = false := by
    show flow.startNodes.isEmpty = false
    cases hn : flow.startNodes with
    | nil => exact absurd hn hstarts
    | cons a l => rfl
  simp only [h1, h2, hpar, Bool.false_eq_true, if_false, if_true] at hok
  split at hok
  · cases hok
  · cases hok
    rfl

/-- Witness for the amended C1: the flow A→B run in parallel resolves to the
one-element array holding the store's recorded output of start node A. -/
theorem parallel_execute_returns_recorded_outputs_witness :
    Val.arr [.nat 1] = .arr (exFlowAB.startNodes.map (fun id =>
      (executeFlow exFlowAB behNone optsPar).2.store.get ("node:" ++ id ++ ":output"))) := by
  exact parallel_execute_returns_recorded_outputs exFlowAB behNone optsPar
    (.arr [.nat 1]) (executeFlow exFlowAB behNone optsPar).2 rfl (List.cons_ne_nil _ _)
    (List.cons_ne_nil _ _) rfl

/-- C1 counterexample: in the flow with nodes A (output 1), B (output 2) and
the unconditional edge A→B, the single start node A has traversal result 2
(the sequential path exhibits it), yet the parallel call resolves to the
array [1] — A's own output — not [2] as the claim requires. -/
theorem parallel_execute_claim_cex :
    (executeFlow exFlowAB behNone optsPar).1 = .ok (.arr [.nat 1])
    ∧ (executeFlow exFlowAB behNone optsSeq).1 = .ok (.nat 2)
    ∧ (Except.ok (.arr [.nat 1]) : Except FlowError Val) ≠ .ok (.arr [.nat 2]) := by
  refine ⟨rfl, rfl, ?_⟩
  simp

/-- C5: evaluation of the code at the failing input.  The flow holds the
single node A (output 1); an already-aborted signal is attached with
withAbortSignal and execute is then called without an abortSignal option.
Line 99 of flow.ts (`this.abortSignal = options.abortSignal`) overwrites the
attached signal with `undefined` before any boundary check, so the node is
invoked and the call resolves with 1 — no cancellation error, contradicting
the claim.  The third conjunct shows the boundary check itself is live: the
same aborted signal passed through the execute options makes the call fail
with the cancellation error before any node starts. -/
theorem withAbortSignal_is_overwritten_by_execute :
    (executeFlow (exFlowA.withAbortSignal sigAlways) behNone optsSeq).1 = .ok (.nat 1)
    ∧ (executeFlow (exFlowA.withAbortSignal sigAlways) behNone
        optsSeq).2.invocations.map Prod.fst = ["A"]
    ∧ (executeFlow exFlowA behNone { abortSignal := some sigAlways }).1 = .error .aborted
    ∧ (executeFlow exFlowA behNone
        { abortSignal := some sigAlways }).2.invocations.map Prod.fst = [] :=
  ⟨rfl, rfl, rfl, rfl⟩

/-- Attempt-count bound of the retry loop: at most `remaining + 1` invocations
of the underlying node. -/
theorem retryLoop_length_le (β : Beh) (node : MNode) (cond : Val → Bool) (input : Val) :
    ∀ (remaining attempt : Nat) (st : SharedStore),
      ((retryLoop β node cond input remaining attempt st).2.2).length ≤ remaining + 1 := by
  intro remaining
  induction remaining with
  | zero =>
    intro attempt st
    rw [retryLoop]
    rcases MNode.execute β node input st with ⟨r, st'⟩
    cases r with
    | ok v => simp
    | error e => simp
  | succ r ih =>
    intro attempt st
    rw [retryLoop]
    rcases MNode.execute β node input st with ⟨rr, st'⟩
    cases rr with
    | ok v => simp
    | error e =>
      cases hc : cond e with
      | false => simp [hc]
      | true =>
        simp only [hc, if_true, List.length_cons]
        have := ih (attempt + 1) st'
        omega

/-- The retry loop always makes at least one invocation. -/
theorem retryResults_ne_nil (β : Beh) (node : MNode) (cond : Val → Bool) (input : Val) :
    ∀ (remaining : Nat) (st : SharedStore),
      retryResults β node cond input remaining st ≠ [] := by
  intro remaining st
  cases remaining with
  | zero =>
    rw [retryResults]
    simp
  | succ r =>
    rw [retryResults]
    rcases MNode.execute β node input st with ⟨rr, st'⟩
    cases rr with
    | ok v => simp
    | error e =>
      by_cases hc : cond e = true
      · simp [hc]
      · simp [hc]

/-- The attempt trace of the retry loop has one entry per actual invocation
of the underlying node: its length equals the length of the attempt-outcome
list. -/
theorem retryLoop_trace_length_eq_results (β : Beh) (node : MNode) (cond : Val → Bool)
    (input : Val) :
    ∀ (remaining attempt : Nat) (st : SharedStore),
      ((retryLoop β node cond input remaining attempt st).2.2).length
        = (retryResults β node cond input remaining st).length := by
  intro remaining
  induction remaining with
  | zero =>
    intro attempt st
    rw [retryLoop, retryResults]
    rcases MNode.execute β node input st with ⟨rr, st'⟩
    cases rr with
    | ok v => rfl
    | error e => rfl
  | succ r ih =>
    intro attempt st
    rw [retryLoop, retryResults]
    rcases MNode.execute β node input st with ⟨rr, st'⟩
    cases rr with
    | ok v => rfl
    | error e =>
      by_cases hc : cond e = true
      · simp [hc, ih]
      · simp [hc]

/-- When the retry loop rejects, the error it rejects with is exactly the
result of the LAST invocation of the underlying node in that run. -/
theorem retryLoop_error_is_last_result (β : Beh) (node : MNode) (cond : Val → Bool)
    (input : Val) :
    ∀ (remaining attempt : Nat) (st : SharedStore) (e : Val),
      (retryLoop β node cond input remaining attempt st).1 = .error e →
      ((retryResults β node cond input remaining st).map Prod.fst).getLast?
        = some (.error e) := by
  intro remaining
  induction remaining with
  | zero =>
    intro attempt st e h
    rw [retryLoop] at h
    rw [retryResults]
    rcases hx : MNode.execute β node input st with ⟨rr, st'⟩
    rw [hx] at h
    cases rr with
    | ok v => cases h
    | error e2 =>
      simp only at h
      cases h
      simp
  | succ r ih =>
    intro attempt st e h
    rw [retryLoop] at h
    rw [retryResults]
    rcases hx : MNode.execute β node input st with ⟨rr, st'⟩
    rw [hx] at h
    cases rr with
    | ok v => cases h
    | error e2 =>
      simp only at h
      dsimp only
      by_cases hc : cond e2 = true
      · rw [if_pos hc] at h
        simp only at h
        have hrec := ih (attempt + 1) st' e h
        rw [if_pos hc]
        rcases hne : retryResults β node cond input r st' with _ | ⟨a, l⟩
        · exact absurd hne (retryResults_ne_nil β node cond input r st')
        · rw [hne] at hrec
          rw [List.map_cons, List.map_cons, List.getLast?_cons_cons]
          rw [List.map_cons] at hrec
          exact hrec
      · rw [if_neg hc] at h
        simp at h
        subst h
        rw [if_neg hc]
        simp

/-- C6: the withRetry wrapper invokes the underlying node at most
maxRetries + 1 times (the attempt trace is bounded, and has exactly one entry
per actual attempt outcome); when the wrapper rejects, the error it rejects
with is the result of the LAST invocation of the underlying node in that very
run, unchanged.  In particular: wrapping the node that always throws the
error with message x in withRetry with maxRetries = 2 rejects with that error
after exactly 3 invocations; a node whose thrown error differs on every
attempt (nat 1, then nat 2, then nat 3) makes the wrapper reject with the
third attempt's error nat 3 — not the first attempt's nat 1 — so the LAST
error is the one re-thrown; and a disqualifying shouldRetry rejects after
exactly 1 invocation with the original error. -/
theorem withRetry_attempt_bound_and_rethrow :
    (∀ (β : Beh) (node : MNode) (cond : Val → Bool) (input : Val) (n : Nat) (st : SharedStore),
      ((withRetryProcess β node n cond input st).2.2).length ≤ n + 1)
    ∧ (∀ (β : Beh) (node : MNode) (cond : Val → Bool) (input : Val) (n : Nat) (st : SharedStore),
      ((withRetryProcess β node n cond input st).2.2).length
        = (retryResults β node cond input n st).length)
    ∧ (∀ (β : Beh) (node : MNode) (cond : Val → Bool) (input : Val) (n : Nat)
        (st : SharedStore) (e : Val),
      (withRetryProcess β node n cond input st).1 = .error e →
      ((retryResults β node cond input n st).map Prod.fst).getLast? = some (.error e))
    ∧ ((withRetryProcess behNone alwaysFailNode 2 (fun _ => true) (.nat 0) emptyStore).1
        = .error (.str "x")
      ∧ ((withRetryProcess behNone alwaysFailNode 2 (fun _ => true) (.nat 0)
          emptyStore).2.2).length = 3)
    ∧ ((withRetryProcess behNone countingFailNode 2 (fun _ => true) (.nat 0) emptyStore).1
        = .error (.nat 3)
      ∧ (retryResults behNone countingFailNode (fun _ => true) (.nat 0) 2 emptyStore).map
          Prod.fst = [.error (.nat 1), .error (.nat 2), .error (.nat 3)]
      ∧ (Val.nat 3) ≠ (Val.nat 1))
    ∧ ((withRetryProcess behNone boomNode 5 (fun _ => false) (.nat 0) emptyStore).1
        = .error (.str "boom")
      ∧ ((withRetryProcess behNone boomNode 5 (fun _ => false) (.nat 0)
          emptyStore).2.2).length = 1) := by
  refine ⟨?_, ?_, ?_, ⟨rfl, rfl⟩, ⟨rfl, rfl, by simp⟩, ⟨rfl, rfl⟩⟩
  · intro β node cond input n st
    exact retryLoop_length_le β node cond input n 1 st
  · intro β node cond input n st
    exact retryLoop_trace_length_eq_results β node cond input n 1 st
  · intro β node cond input n st e h
    exact retryLoop_error_is_last_result β node cond input n 1 st e h

/-- Witness for C6: on the node whose error differs per attempt, the error
of the last of the three attempt outcomes of the actual run — nat 3 — is the
one the exhausted wrapper rejects with. -/
theorem withRetry_attempt_bound_and_rethrow_witness :
    ((retryResults behNone countingFailNode (fun _ => true) (.nat 0) 2 emptyStore).map
      Prod.fst).getLast? = some (.error (.nat 3)) :=
  withRetry_attempt_bound_and_rethrow.2.2.1 behNone countingFailNode (fun _ => true)
    (.nat 0) 2 emptyStore (.nat 3) rfl

theorem listHasSub_append_left (pat : List Char) :
    ∀ (s t : List Char), listHasSub pat t = true → listHasSub pat (s ++ t) = true := by
  intro s
  induction s with
  | nil => intro t h; simpa using h
  | cons c cs ih =>
    intro t h
    rw [List.cons_append, listHasSub, ih t h]
    simp

theorem listHasSub_of_isPrefixOf (pat l : List Char) (h : pat.isPrefixOf l = true) :
    listHasSub pat l = true := by
  cases l with
  | nil => rw [listHasSub]; exact h
  | cons c cs => rw [listHasSub, h]; simp

theorem isPrefixOf_append_left (l1 l2 l3 : List Char) (h : l1.isPrefixOf l2 = true) :
    l1.isPrefixOf (l2 ++ l3) = true := by
  rw [List.isPrefixOf_iff_prefix] at h ⊢
  exact h.trans (List.prefix_append l2 l3)

/-- The synthetic timer error message contains the words timed out, for every
timeout duration. -/
theorem timeoutMsg_contains (ms : Nat) :
    strIncludes (errMessage (timeoutErrorVal ms)) "timed out" = true := by
  show listHasSub ("timed out".data)
    (("Node execution timed out after " ++ toString ms ++ "ms").data) = true
  have hsplit : ("Node execution timed out after " ++ toString ms ++ "ms").data
      = "Node execution ".data
        ++ ("timed out after ".data ++ ((toString ms).data ++ "ms".data)) := by
    rw [String.data_append, String.data_append]
    rw [show ("Node execution timed out after " : String).data
        = "Node execution ".data ++ "timed out after ".data from rfl]
    simp [List.append_assoc]
  rw [hsplit]
  apply listHasSub_append_left
  apply listHasSub_of_isPrefixOf
  apply isPrefixOf_append_left
  rfl

/-- C7 (amended): when the timer wins the race the wrapper resolves with
timeoutFallback(input, store); when the node completes first with a value the
wrapper resolves with it; when the node itself throws an error whose message
does NOT contain the words timed out, the wrapper rejects with that original
error unmodified; but a node error whose message does contain timed out is
classified as a timeout by the `message.includes` test and replaced by the
fallback instead of propagating. -/
theorem withTimeout_fallback_and_propagation (β : Beh) (node : MNode) (ms : Nat)
    (fn : Val → SharedStore → (Except Val Val) × SharedStore) (input : Val) (st : SharedStore) :
    (withTimeoutProcess β node ms fn true input st = fn input st)
    ∧ (∀ (v : Val) (st' : SharedStore), MNode.execute β node input st = (.ok v, st') →
        withTimeoutProcess β node ms fn false input st = (.ok v, st'))
    ∧ (∀ (e : Val) (st' : SharedStore), MNode.execute β node input st = (.error e, st') →
        strIncludes (errMessage e) "timed out" = false →
        withTimeoutProcess β node ms fn false input st = (.error e, st'))
    ∧ (∀ (e : Val) (st' : SharedStore), MNode.execute β node input st = (.error e, st') →
        strIncludes (errMessage e) "timed out" = true →
        withTimeoutProcess β node ms fn false input st = fn input st') := by
  refine ⟨?_, ?_, ?_, ?_⟩
  · rw [withTimeoutProcess]
    simp [timeoutMsg_contains ms]
  · intro v st' hx
    rw [withTimeoutProcess]
    simp [hx]
  · intro e st' hx hinc
    rw [withTimeoutProcess]
    simp [hx, hinc]
  · intro e st' hx hinc
    rw [withTimeoutProcess]
    simp [hx, hinc]

/-- Witness for the amended C7: a node failing with the unrelated message
boom propagates its original error through the timeout wrapper unmodified. -/
theorem withTimeout_fallback_and_propagation_witness :
    withTimeoutProcess behNone boomNode 10 (fun _ s => (.ok (.str "fallback"), s)) false
      (.nat 0) emptyStore
    = (.error (.str "boom"), (MNode.execute behNone boomNode (.nat 0) emptyStore).2) :=
  (withTimeout_fallback_and_propagation behNone boomNode 10
    (fun _ s => (.ok (.str "fallback"), s)) (.nat 0) emptyStore).2.2.1
    (.str "boom") (MNode.execute behNone boomNode (.nat 0) emptyStore).2 rfl rfl

/-- C7 counterexample: a node whose own execution throws the error with
message operation timed out — a failure that is not the wrapper's timer, the
timer never fired — makes the wrapper resolve with the fallback value instead
of rejecting with the original error as the claim requires. -/
theorem withTimeout_claim_cex :
    (withTimeoutProcess behNone opTimedOutNode 10 (fun _ s => (.ok (.str "fallback"), s)) false
      (.nat 0) emptyStore).1 = .ok (.str "fallback")
    ∧ (Except.ok (.str "fallback") : Except Val Val) ≠ .error (.str "operation timed out") := by
  refine ⟨rfl, ?_⟩
  simp

/-- C3 (amended): the instance-scoped attempt counter belongs to the
RetryNode specialized node, not to the withRetry wrapper.  RetryNode's
`attempts` field (threaded here as explicit state) resets to zero on any
successful — error-free — call, increments by one per failing call, and its
post-call value is the pre-call value of the next execute of the same
instance: with maxRetries 1, a first failing call reports attempt 1 with a
retry marker, and a second failing call of the same instance returns
retryFailed precisely because the counter carried over. -/
theorem retryNode_counter_instance_scoped :
    (∀ (tgt : String) (mr a : Nat) (input : Val),
      (((input.objGet "error").truthy || (input.objGet "failed").truthy) = false) →
      RetryNode.process tgt mr a input = (input, 0))
    ∧ (∀ (tgt : String) (mr a : Nat) (input : Val),
      (((input.objGet "error").truthy || (input.objGet "failed").truthy) = true) →
      (RetryNode.process tgt mr a input).2 = a + 1)
    ∧ ((RetryNode.process "t" 1 0 (.obj [("error", .bool true)])).1.objGet "retry" = .bool true
      ∧ (RetryNode.process "t" 1 0 (.obj [("error", .bool true)])).1.objGet "attempt" = .nat 1
      ∧ (RetryNode.process "t" 1 0 (.obj [("error", .bool true)])).2 = 1
      ∧ (RetryNode.process "t" 1
          (RetryNode.process "t" 1 0 (.obj [("error", .bool true)])).2
          (.obj [("error", .bool true)])).1.objGet "retryFailed" = .bool true
      ∧ (RetryNode.process "t" 1
          (RetryNode.process "t" 1 0 (.obj [("error", .bool true)])).2
          (.obj [("error", .bool true)])).2 = 2) := by
  refine ⟨?_, ?_, rfl, rfl, rfl, rfl, rfl⟩
  · intro tgt mr a input h
    rw [RetryNode.process]
    simp [h]
  · intro tgt mr a input h
    rw [RetryNode.process]
    simp only [h, Bool.not_true, Bool.false_eq_true, if_false]
    split
    · rfl
    · rfl

/-- Witness for the amended C3: a successful input resets the counter from 5
to 0; a failing input increments it from 5 to 6. -/
theorem retryNode_counter_instance_scoped_witness :
    RetryNode.process "t" 3 5 (.obj [("ok", .bool true)]) = (.obj [("ok", .bool true)], 0)
    ∧ (RetryNode.process "t" 3 5 (.obj [("error", .bool true)])).2 = 6 :=
  ⟨retryNode_counter_instance_scoped.1 "t" 3 5 (.obj [("ok", .bool true)]) rfl,
   retryNode_counter_instance_scoped.2.1 "t" 3 5 (.obj [("error", .bool true)]) rfl⟩

/-- C3 counterexample: the withRetry wrapper's attempt counter does not
persist across execute calls of the same wrapper instance.  Two consecutive
calls of the wrapper of the always-failing node with maxRetries 2 (store
threaded from the first call to the second, no success anywhere): the first
call's attempt trace is [1, 2, 3], and the second call's attempt trace is
again [1, 2, 3] — its first underlying invocation observes counter value 1,
the per-call reinitialization, whereas a counter that increments per failing
attempt, resets only on success, and persists across calls would stand at 3
after the first call and make the second call start from 4. -/
theorem withRetry_counter_claim_cex :
    (withRetryProcess behNone alwaysFailNode 2 (fun _ => true) (.nat 0) emptyStore).2.2
      = [1, 2, 3]
    ∧ (withRetryProcess behNone alwaysFailNode 2 (fun _ => true) (.nat 0)
        (withRetryProcess behNone alwaysFailNode 2 (fun _ => true) (.nat 0) emptyStore).2.1).2.2
      = [1, 2, 3]
    ∧ (withRetryProcess behNone alwaysFailNode 2 (fun _ => true) (.nat 0)
        (withRetryProcess behNone alwaysFailNode 2 (fun _ => true) (.nat 0) emptyStore).2.1).2.2.head?
      = some 1
    ∧ some (1 : Nat) ≠ some 4 := by
  refine ⟨rfl, rfl, rfl, ?_⟩
  decide

/-! ## SharedStore notification theorems -/

/-- Helper: the event list produced by notifySubscribers enumerates every
current subscriber of the key in registration order, marking the throwing
ones as caught. -/
theorem notify_events (β : Beh) (subs : List (String × List Nat)) (data : List (String × Val))
    (k : String) (v : Val) :
    notifySubscribers β ⟨data, subs⟩ k v
      = (subsOf subs k).map (fun c => ⟨c, k, v, β c v⟩) := by
  rw [notifySubscribers]
  apply List.map_congr_left
  intro c _
  rw [invokeSubscriber]
  by_cases hb : β c v
  · simp [hb]
  · simp [hb]

/-- C8 (amended): the notification paths of set, delete (when it removed an
entry) and append invoke every current subscriber of the key in registration
order, each wrapped in try/catch — a throwing callback is recorded as caught
(its threw flag) and never interrupts the operation or the remaining
subscribers, so nothing propagates to the caller; but the immediate
invocation performed by subscribe when the key already holds a value is NOT
guarded: a throwing callback there escapes to the caller of subscribe, while
a non-throwing one yields the immediate read event. -/
theorem subscriber_exceptions_caught_except_subscribe :
    (∀ (β : Beh) (st : SharedStore) (k : String) (v : Val),
      (SharedStore.set β st k v).2 = (subsOf st.subs k).map (fun c => ⟨c, k, v, β c v⟩))
    ∧ (∀ (β : Beh) (st : SharedStore) (k : String), st.hasKey k = true →
      (SharedStore.delete β st k).2.2
        = (subsOf st.subs k).map (fun c => ⟨c, k, .undefined, β c .undefined⟩))
    ∧ (∀ (β : Beh) (st : SharedStore) (k : String) (v : Val) (xs : List Val),
      st.get k = .arr xs →
      (SharedStore.append β st k v).2
        = (subsOf st.subs k).map (fun c =>
            ⟨c, k, .arr (xs ++ [v]), β c (.arr (xs ++ [v]))⟩))
    ∧ (∀ (β : Beh) (st : SharedStore) (k : String) (c : Nat),
      st.hasKey k = true → β c (st.get k) = false →
      (SharedStore.subscribe β st k c).1 = .ok [⟨c, k, st.get k, false⟩])
    ∧ (∀ (β : Beh) (st : SharedStore) (k : String) (c : Nat),
      st.hasKey k = true → β c (st.get k) = true →
      (SharedStore.subscribe β st k c).1 = .error ()) := by
  refine ⟨?_, ?_, ?_, ?_, ?_⟩
  · intro β st k v
    rw [SharedStore.set]
    exact notify_events β st.subs _ k v
  · intro β st k h
    rw [SharedStore.delete]
    simp only [h, if_true]
    exact notify_events β st.subs _ k .undefined
  · intro β st k v xs h
    rw [SharedStore.append, h]
    exact notify_events β st.subs _ k (.arr (xs ++ [v]))
  · intro β st k c h hb
    rw [SharedStore.subscribe]
    have h' : ({ data := st.data, subs := subsAdd st.subs k c } : SharedStore).hasKey k
        = true := h
    have hb' : β c (({ data := st.data, subs := subsAdd st.subs k c } : SharedStore).get k)
        = false := hb
    simp only [h', hb', if_true, invokeSubscriber, Bool.false_eq_true, if_false]
    rfl
  · intro β st k c h hb
    rw [SharedStore.subscribe]
    have h' : ({ data := st.data, subs := subsAdd st.subs k c } : SharedStore).hasKey k
        = true := h
    have hb' : β c (({ data := st.data, subs := subsAdd st.subs k c } : SharedStore).get k)
        = true := hb
    simp only [h', hb', if_true, invokeSubscriber]

/-- Witness for the amended C8: with subscriber 0 registered on k and
throwing, set completes and records the caught throw; a non-throwing
subscribe on a held key returns the immediate read event. -/
theorem subscriber_exceptions_caught_except_subscribe_witness :
    (SharedStore.set behZeroThrows storeK7Sub0 "k" (.nat 8)).2 = [⟨0, "k", .nat 8, true⟩]
    ∧ (SharedStore.subscribe behNone storeK7 "k" 3).1 = .ok [⟨3, "k", .nat 7, false⟩] :=
  ⟨subscriber_exceptions_caught_except_subscribe.1 behZeroThrows storeK7Sub0 "k" (.nat 8),
   subscriber_exceptions_caught_except_subscribe.2.2.2.1 behNone storeK7 "k" 3 rfl rfl⟩

/-- C8 counterexample: with the key k holding a value and the callback of
subscriber 0 throwing, the immediate invocation inside subscribe is not
caught — the exception propagates to the caller of subscribe, which the
claim says never happens. -/
theorem subscribe_immediate_throw_propagates_cex :
    (SharedStore.subscribe behZeroThrows storeK7 "k" 0).1 = .error () := rfl

/-- C9: delete's Bool result is exactly whether the key existed; deleting an
absent key returns false, leaves the store untouched and invokes no
subscriber callback; subscribers of the key are notified — with the
undefined sentinel — exactly when an entry was actually removed. -/
theorem delete_absent_no_notification :
    (∀ (β : Beh) (st : SharedStore) (k : String),
      (SharedStore.delete β st k).2.1 = st.hasKey k)
    ∧ (∀ (β : Beh) (st : SharedStore) (k : String), st.hasKey k = false →
      SharedStore.delete β st k = (st, false, []))
    ∧ (∀ (β : Beh) (st : SharedStore) (k : String), st.hasKey k = true →
      (SharedStore.delete β st k).2.2
        = (subsOf st.subs k).map (fun c => ⟨c, k, .undefined, β c .undefined⟩)) := by
  refine ⟨?_, ?_, ?_⟩
  · intro β st k
    rw [SharedStore.delete]
    by_cases h : st.hasKey k
    · simp [h]
    · simp [h]
  · intro β st k h
    rw [SharedStore.delete]
    simp [h]
  · intro β st k h
    rw [SharedStore.delete]
    simp only [h, if_true]
    exact notify_events β st.subs _ k .undefined

/-- Witness for C9: deleting the absent key missing from the store holding
only k returns false with no events, and the store is unchanged. -/
theorem delete_absent_no_notification_witness :
    SharedStore.delete behZeroThrows storeK7Sub0 "missing"
      = (storeK7Sub0, false, []) :=
  delete_absent_no_notification.2.1 behZeroThrows storeK7Sub0 "missing" rfl

/-- C10: clear empties the data map while invoking no subscriber callback
(its event list is empty because the source calls no notifier) and leaving
the entire subscription map registered; consequently a subsequent set on a
key still notifies the key's surviving subscriber. -/
theorem clear_keeps_subscriptions :
    (∀ st : SharedStore, (SharedStore.clear st).1.data = []
      ∧ (SharedStore.clear st).1.subs = st.subs
      ∧ (SharedStore.clear st).2 = [])
    ∧ (∀ (β : Beh) (st : SharedStore) (k : String) (v : Val) (c : Nat),
      c ∈ subsOf st.subs k →
      (⟨c, k, v, β c v⟩ : SEvent) ∈ (SharedStore.set β (SharedStore.clear st).1 k v).2) := by
  refine ⟨fun st => ⟨rfl, rfl, rfl⟩, ?_⟩
  intro β st k v c hc
  rw [SharedStore.set]
  rw [show notifySubscribers β ⟨assocSet (SharedStore.clear st).1.data k v, (SharedStore.clear st).1.subs⟩ k v
      = (subsOf st.subs k).map (fun c => ⟨c, k, v, β c v⟩) from
    notify_events β st.subs _ k v]
  exact List.mem_map_of_mem _ hc

/-- Witness for C10: subscriber 0 on k survives clear and is notified by the
next set of k. -/
theorem clear_keeps_subscriptions_witness :
    (⟨0, "k", .nat 9, false⟩ : SEvent)
      ∈ (SharedStore.set behNone (SharedStore.clear storeK7Sub0).1 "k" (.nat 9)).2 :=
  clear_keeps_subscriptions.2 behNone storeK7Sub0 "k" (.nat 9) 0 (by simp [storeK7Sub0, subsOf, assocGet])

end AgentFlow
